import Mathlib

/-!
Verification of the PFASST core against its natural-language specification.

The development shallowly embeds the relevant parts of the C++ sources:

* `src/pfasst/sweeper/sweeper_impl.hpp` — the generic `Sweeper` (setup,
  initial state access, convergence check, end-state integration);
* `src/pfasst/encap/eigen3_vector_impl.hpp` — the Eigen-vector
  encapsulation (zero-initialised containers, infinity norm);
* `src/pfasst/comm/mpi_p2p_impl.hpp` — the point-to-point communicator
  (non-blocking request bookkeeping, cleanup);
* `src/pfasst/transfer/spectral_1d_impl.hpp` — 1D spectral interpolation
  and injection restriction;
* `src/pfasst/contrib/spectral_transfer_3d_impl.hpp` — 3D spectral
  transfer and its geometry checks;
* `tests/examples/vanderpol/test_vdp_zeronu_conv.cpp` — the van der Pol
  convergence-rate test.

Machine floating point (`double`) is idealised as `ℚ` (for the sweeper,
communicator and test logic, keeping everything executable) and as `ℝ`/`ℂ`
(for the Fourier-transform based spatial transfer operators).  C++
exceptions are modelled with `Except`/`Option String` results; a method
that throws before mutating its object is modelled as returning the
unchanged state together with the error.
-/

namespace PFASST

/-! ## Encapsulation (eigen3_vector_impl.hpp)

An encapsulation holds a spatial vector of `double`s; a `shared_ptr` to an
encapsulation is `Option (List ℚ)` (`none` is the null pointer).  The
factory creates zero-filled containers of a fixed size: the constructor
`Encapsulation(const size_t size)` allocates `_data(size)` and calls
`zero()`.  `norm0()` is the infinity norm `lpNorm<Eigen::Infinity>()`. -/

/-- Infinity norm of a spatial vector: maximum of the absolute values
(0 for an empty vector). -/
def norm0 (v : List ℚ) : ℚ := v.foldr (fun x acc => max |x| acc) 0

/-- Norm of the container behind a possibly-null pointer (the C++ code
asserts non-null before dereferencing; `none` yields the empty vector). -/
def encNorm (o : Option (List ℚ)) : ℚ := norm0 (o.getD [])

/-- Pointwise sum of two spatial vectors. -/
def vadd (x y : List ℚ) : List ℚ := List.zipWith (fun a b => a + b) x y

/-- Pointwise difference of two spatial vectors. -/
def vsub (x y : List ℚ) : List ℚ := List.zipWith (fun a b => a - b) x y

/-- Scaling of a spatial vector. -/
def vscale (a : ℚ) (x : List ℚ) : List ℚ := x.map (fun b => a * b)

/-! ## Quadrature and Status (data the sweeper reads) -/

/-- The part of `IQuadrature` the sweeper consumes: number of nodes,
whether the right endpoint is a node, the end-interval weights and the
node-to-node integration matrix. -/
structure Quadrature where
  num_nodes : ℕ
  right_is_node : Bool
  b_vec : List ℚ
  q_mat : List (List ℚ)
deriving DecidableEq

/-- The per-step `Status` record. -/
structure Status where
  time : ℚ
  dt : ℚ
  t_end : ℚ
  max_iterations : ℕ
  iteration : ℕ
  abs_res_norm : ℚ
  rel_res_norm : ℚ
  converged : Bool
  previous_converged : Bool
deriving DecidableEq

/-! ## Sweeper state (sweeper_impl.hpp) -/

/-- The fields of the generic `Sweeper` that the verified operations
touch.  `states`, `previous_states`, `tau`, `residuals` are vectors of
shared pointers to encapsulations; `end_state` is a single shared
pointer; the `_abs_res_norms`/`_rel_res_norms` caches hold scalar
norms. -/
structure Sweeper where
  quadrature : Option Quadrature
  status : Option Status
  factory_size : ℕ
  states : List (Option (List ℚ))
  previous_states : List (Option (List ℚ))
  end_state : Option (List ℚ)
  tau : List (Option (List ℚ))
  residuals : List (Option (List ℚ))
  f_expl : List (Option (List ℚ))
  f_impl : List (Option (List ℚ))
  abs_residual_tol : ℚ
  rel_residual_tol : ℚ
  abs_res_norms : List ℚ
  rel_res_norms : List ℚ
deriving DecidableEq

/-- `Sweeper::setup()` (sweeper_impl.hpp, lines 206–244).  Throws when no
status or no quadrature is attached — in both cases before any
allocation, so the state is returned unchanged together with the error.
On success it resizes `states`, `previous_states`, `tau`, `residuals` to
`num_nodes + 1` and fills every slot (and `end_state`) with a fresh
zero-filled container from the factory. -/
def setup (s : Sweeper) : Sweeper × Option String :=
  match s.status with
  | none => (s, some "Status not yet set.")
  | some _ =>
    match s.quadrature with
    | none => (s, some "Quadrature not yet set.")
    | some q =>
      let fresh : Option (List ℚ) := some (List.replicate s.factory_size 0)
      ({ s with
          states := List.replicate (q.num_nodes + 1) fresh
          previous_states := List.replicate (q.num_nodes + 1) fresh
          end_state := fresh
          tau := List.replicate (q.num_nodes + 1) fresh
          residuals := List.replicate (q.num_nodes + 1) fresh }, none)

/-- `Sweeper::initial_state()` (lines 75–84): throws when `states` is
still empty (sweeper not set up), otherwise returns the front pointer. -/
def initial_state (s : Sweeper) : Except String (Option (List ℚ)) :=
  if s.states.length = 0 then
    Except.error "sweeper not setup before querying initial state"
  else
    Except.ok (s.states.headD none)

/-- `Sweeper::get_initial_state()` (lines 86–95): the const twin of
`initial_state`. -/
def get_initial_state (s : Sweeper) : Except String (Option (List ℚ)) :=
  if s.states.length = 0 then
    Except.error "sweeper not setup before querying initial state"
  else
    Except.ok (s.states.headD none)

/-- `Sweeper::integrate_end_state(dt)` (lines 462–479).  `dt` is unused
(`UNUSED(dt)`).  When the quadrature's right endpoint is a node the data
of `states.back()` is copied into `end_state`; otherwise the method
throws a `runtime_error` (it does not implement the `b_vec` path). -/
def integrate_end_state (s : Sweeper) (dt : ℚ) : Sweeper × Option String :=
  match s.quadrature with
  | none => (s, some "quadrature not attached")
  | some q =>
    if q.right_is_node then
      ({ s with end_state := some ((s.states.getLastD none).getD []) }, none)
    else
      (s, some "integration of end state for quadrature not including right time interval boundary")

/-- Follows the spec's words, not the source (refinement target for the
end-state claim): `end_state ← states[0] + dt · Σ_j b_vec[j] ·
(f_expl[j] + f_impl[j])`. -/
def end_state_spec_formula (s : Sweeper) (dt : ℚ) : List ℚ :=
  let b := match s.quadrature with | some q => q.b_vec | none => []
  let acc := (List.range b.length).foldl
    (fun acc j =>
      vadd acc (vscale (b.getD j 0)
        (vadd ((s.f_expl.getD j none).getD []) ((s.f_impl.getD j none).getD []))))
    (List.replicate ((s.states.headD none).getD []).length 0)
  vadd ((s.states.headD none).getD []) (vscale dt acc)

/-- Resize a `std::vector<double>` to `n` entries (new entries are
value-initialised to 0). -/
def listResize (l : List ℚ) (n : ℕ) : List ℚ :=
  l.take n ++ List.replicate (n - l.length) 0

/-- Largest element of a norm cache (`*std::max_element(...)`; 0 for the
empty vector, which the code never queries). -/
def maxElem : List ℚ → ℚ
  | [] => 0
  | x :: xs => xs.foldl max x

/-- `Sweeper::converged(pre_check)` after the initial
`compute_residuals(pre_check)` call (sweeper_impl.hpp, lines 394–452).
Both norm caches are resized to the number of residuals and their back
entries set from the last residual (and last state, for the relative
norm).  The preliminary check decides from these back entries alone and
does not touch the status; the full check fills the whole caches, writes
the maxima into `status->abs_res_norm()`/`rel_res_norm()` and decides
from those maxima.  With both tolerances non-positive either branch
returns `false` (after a warning). -/
def convergedAfter (s : Sweeper) (pre_check : Bool) : Sweeper × Bool :=
  let num := s.residuals.length
  let a0 := listResize s.abs_res_norms num
  let r0 := listResize s.rel_res_norms num
  let absBack := encNorm (s.residuals.getLastD none)
  let relBack := absBack / encNorm (s.states.getLastD none)
  let a1 := a0.set (num - 1) absBack
  let r1 := r0.set (num - 1) relBack
  if pre_check then
    let s1 := { s with abs_res_norms := a1, rel_res_norms := r1 }
    if 0 < s.abs_residual_tol ∨ 0 < s.rel_residual_tol then
      (s1, decide (absBack < s.abs_residual_tol) || decide (relBack < s.rel_residual_tol))
    else
      (s1, false)
  else
    let a2 := (List.range (num - 1)).foldl
      (fun l m => l.set m (encNorm (s.residuals.getD m none))) a1
    let r2 := (List.range (num - 1)).foldl
      (fun l m => l.set m (encNorm (s.residuals.getD m none) / encNorm (s.states.getD m none))) r1
    let newAbs := maxElem a2
    let newRel := maxElem r2
    let st1 := s.status.map (fun st => { st with abs_res_norm := newAbs, rel_res_norm := newRel })
    let s1 := { s with abs_res_norms := a2, rel_res_norms := r2, status := st1 }
    if 0 < s.abs_residual_tol ∨ 0 < s.rel_residual_tol then
      (s1, decide (newAbs < s.abs_residual_tol) || decide (newRel < s.rel_residual_tol))
    else
      (s1, false)

/-- Modelled from the spec: the IMEX override of `compute_residuals` is
not under `src/` (the base class in `sweeper_impl.hpp` only throws); the
spec gives `residuals[m] = states[0] + dt·Σ_j q_mat[m][j]·(f_expl[j] +
f_impl[j]) + tau[m] − states[m]` and the override writes only the
`residuals` vector.  The `only_last` flag merely restricts which entries
are recomputed, which is irrelevant here, so all entries are computed. -/
def compute_residuals_spec (s : Sweeper) (only_last : Bool) : Sweeper :=
  let dt := match s.status with | some st => st.dt | none => 0
  let row := fun (m : ℕ) =>
    match s.quadrature with | some q => q.q_mat.getD m [] | none => []
  let q_sum := fun (m : ℕ) =>
    (List.range (row m).length).foldl
      (fun acc j =>
        vadd acc (vscale ((row m).getD j 0)
          (vadd ((s.f_expl.getD j none).getD []) ((s.f_impl.getD j none).getD []))))
      (List.replicate ((s.states.headD none).getD []).length 0)
  let res := (List.range s.residuals.length).map (fun m =>
    some (vsub
      (vadd (vadd ((s.states.headD none).getD []) (vscale dt (q_sum m)))
        ((s.tau.getD m none).getD []))
      ((s.states.getD m none).getD [])))
  { s with residuals := res }

/-- `Sweeper::converged(pre_check)` in full: `compute_residuals`
followed by the decision logic. -/
def converged (s : Sweeper) (pre_check : Bool) : Sweeper × Bool :=
  convergedAfter (compute_residuals_spec s pre_check) pre_check

/-! ## Communicator (mpi_p2p_impl.hpp)

`MpiP2P` keeps a `std::map<(peer, tag), MPI_Request>` of pending
non-blocking requests.  The model records, besides that map (an
association list with unique keys), a trace of the MPI calls that were
made: every `MPI_Isend`/`MPI_Irecv` appends an `issue` event carrying a
fresh request identifier and every `MPI_Wait` appends a `wait` event for
the identifier it completed.  A request is in flight once issued and
until waited on. -/

/-- Observable MPI actions: issuing a non-blocking request for a
`(peer, tag)` pair, and completing a request by `MPI_Wait`. -/
inductive MpiEvent where
  | issue : ℤ → ℤ → ℕ → MpiEvent
  | wait : ℕ → MpiEvent
deriving DecidableEq

/-- The communicator state: the `_requests` map (association list keyed
by `(peer, tag)`), a counter producing fresh request identifiers, and
the event trace. -/
structure MpiP2P where
  requests : List ((ℤ × ℤ) × ℕ)
  next_id : ℕ
  trace : List MpiEvent
deriving DecidableEq

/-- `this->_requests.find(request_index)` on the association list. -/
def lookupReq (l : List ((ℤ × ℤ) × ℕ)) (k : ℤ × ℤ) : Option ℕ :=
  (l.find? (fun e => decide (e.1 = k))).map (fun e => e.2)

/-- `this->_requests[request_index] = v` when the key is present:
overwrite the entry with that key, in place. -/
def setReq (l : List ((ℤ × ℤ) × ℕ)) (k : ℤ × ℤ) (v : ℕ) : List ((ℤ × ℤ) × ℕ) :=
  l.map (fun e => if e.1 = k then (k, v) else e)

/-- Common body of `MpiP2P::isend`, `isend_status`, `irecv` and
`irecv_status` (mpi_p2p_impl.hpp, lines 157–182, 184–211, 243–268,
270–297; the four bodies are copies of each other).  If a request is
already stored under `(peer, tag)` it is waited on first; then the new
non-blocking operation is issued into that slot. -/
def issueRequest (s : MpiP2P) (peer tag : ℤ) : MpiP2P :=
  match lookupReq s.requests (peer, tag) with
  | some old =>
    { requests := setReq s.requests (peer, tag) s.next_id
      next_id := s.next_id + 1
      trace := s.trace ++ [MpiEvent.wait old, MpiEvent.issue peer tag s.next_id] }
  | none =>
    { requests := s.requests ++ [((peer, tag), s.next_id)]
      next_id := s.next_id + 1
      trace := s.trace ++ [MpiEvent.issue peer tag s.next_id] }

/-- `MpiP2P::isend(data, count, dest_rank, tag)`. -/
def isend (s : MpiP2P) (dest_rank tag : ℤ) : MpiP2P := issueRequest s dest_rank tag

/-- `MpiP2P::isend_status(data, count, dest_rank, tag)`. -/
def isend_status (s : MpiP2P) (dest_rank tag : ℤ) : MpiP2P := issueRequest s dest_rank tag

/-- `MpiP2P::irecv(data, count, src_rank, tag)`. -/
def irecv (s : MpiP2P) (src_rank tag : ℤ) : MpiP2P := issueRequest s src_rank tag

/-- `MpiP2P::irecv_status(data, count, src_rank, tag)`. -/
def irecv_status (s : MpiP2P) (src_rank tag : ℤ) : MpiP2P := issueRequest s src_rank tag

/-- The intended per-entry behaviour of the `MpiP2P::cleanup()` loop
(lines 116–122): wait on each stored request, then erase its entry.
The source loop is not a sound implementation of this: it calls
`this->_requests.erase(req.first)` on the `std::map` it is
range-iterating, which invalidates the loop iterator, so the increment
after the first erase is undefined behaviour on any non-empty map.
This model executes the evidently intended wait-then-erase sequence
(the intent the trailing `assert(this->_requests.size() == 0)`
documents). -/
def cleanupLoop : List ((ℤ × ℤ) × ℕ) → List MpiEvent → List MpiEvent
  | [], tr => tr
  | e :: rest, tr => cleanupLoop rest (tr ++ [MpiEvent.wait e.2])

/-- `MpiP2P::cleanup()` under the intended semantics of its loop (see
`cleanupLoop` for the undefined behaviour in the source): wait on every
outstanding request and leave the request map empty.  Note the
communicator invariants proved below are insensitive to this modelling:
waiting and erasing only ever remove requests from flight. -/
def cleanup (s : MpiP2P) : MpiP2P :=
  { requests := [], next_id := s.next_id, trace := cleanupLoop s.requests s.trace }

/-- The non-blocking operations a client can perform on the
communicator. -/
inductive CommOp where
  | isend : ℤ → ℤ → CommOp
  | isend_status : ℤ → ℤ → CommOp
  | irecv : ℤ → ℤ → CommOp
  | irecv_status : ℤ → ℤ → CommOp
  | cleanup : CommOp
deriving DecidableEq

/-- Interpretation of one operation. -/
def applyOp (s : MpiP2P) : CommOp → MpiP2P
  | CommOp.isend p t => isend s p t
  | CommOp.isend_status p t => isend_status s p t
  | CommOp.irecv p t => irecv s p t
  | CommOp.irecv_status p t => irecv_status s p t
  | CommOp.cleanup => cleanup s

/-- The communicator as constructed (`MpiP2P::MpiP2P`): no pending
requests. -/
def initComm : MpiP2P := { requests := [], next_id := 0, trace := [] }

/-- Run a sequence of operations from the initial communicator state. -/
def runOps (ops : List CommOp) : MpiP2P := ops.foldl applyOp initComm

/-- Requests in flight after a trace: issued and not yet waited on
(each entry is the request's `(peer, tag)` key and its identifier). -/
def inFlightStep (acc : List ((ℤ × ℤ) × ℕ)) : MpiEvent → List ((ℤ × ℤ) × ℕ)
  | MpiEvent.issue p t i => acc ++ [((p, t), i)]
  | MpiEvent.wait i => acc.filter (fun e => decide (e.2 ≠ i))

/-- All requests in flight at the end of a trace. -/
def inFlight (tr : List MpiEvent) : List ((ℤ × ℤ) × ℕ) := tr.foldl inFlightStep []

/-- Well-formedness of a communicator state: the request map has
pairwise distinct keys and request identifiers, the in-flight requests
have pairwise distinct `(peer, tag)` keys, the in-flight requests are
exactly the stored ones, and every stored identifier is older than the
freshness counter. -/
def GoodComm (s : MpiP2P) : Prop :=
  s.requests.Pairwise (fun a b => a.1 ≠ b.1 ∧ a.2 ≠ b.2)
  ∧ (inFlight s.trace).Pairwise (fun a b => a.1 ≠ b.1)
  ∧ (∀ e : (ℤ × ℤ) × ℕ, e ∈ inFlight s.trace ↔ e ∈ s.requests)
  ∧ (∀ e ∈ s.requests, e.2 < s.next_id)

/-! ## Van der Pol convergence test (test_vdp_zeronu_conv.cpp) -/

/-- The quadrature variants the test iterates over. -/
inductive QuadratureType where
  | GaussLobatto
  | GaussLegendre
  | GaussRadau
  | ClenshawCurtis
  | Uniform
deriving DecidableEq

/-- The scenario parameters chosen by
`VdPConvergenceTest::set_parameters`. -/
structure VdPParams where
  niters : ℕ
  tend : ℚ
  nsteps : List ℕ
  nnodes_in_call : ℕ
deriving DecidableEq

/-- `VdPConvergenceTest::set_parameters` (test_vdp_zeronu_conv.cpp,
lines 43–90): per-variant iteration count, end time, step counts and
node count passed to the run. -/
def set_parameters (nodetype : QuadratureType) (nnodes : ℕ) : VdPParams :=
  match nodetype with
  | QuadratureType.GaussLobatto =>
    { niters := 2 * nnodes - 2, tend := 66/100, nsteps := [7, 9, 11, 13],
      nnodes_in_call := nnodes }
  | QuadratureType.GaussLegendre =>
    { niters := 2 * nnodes, tend := 88/100, nsteps := [7, 9, 11, 13],
      nnodes_in_call := nnodes + 2 }
  | QuadratureType.GaussRadau =>
    { niters := 2 * nnodes - 1, tend := 88/100, nsteps := [7, 9, 11, 13],
      nnodes_in_call := nnodes + 1 }
  | QuadratureType.ClenshawCurtis =>
    { niters := nnodes, tend := 65/100, nsteps := [25, 35, 45, 55],
      nnodes_in_call := nnodes + 1 }
  | QuadratureType.Uniform =>
    { niters := nnodes, tend := 65/100, nsteps := [25, 35, 45, 55],
      nnodes_in_call := nnodes }

/-- The Gauss-Lobatto branch of the `AllNodes` test body (lines
133–141): `EXPECT_THAT(convrate[i], Ge(double(0.95* 2 * nnodes - 2)))`,
i.e. a measured rate is accepted iff it is at least
`0.95·2·nnodes − 2`. -/
def gauss_lobatto_accepts (nnodes : ℕ) (convrate : ℚ) : Bool :=
  decide ((95/100 : ℚ) * 2 * (nnodes : ℚ) - 2 ≤ convrate)

/-! ## 3D spectral transfer (spectral_transfer_3d_impl.hpp)

Physical data is a `List ℚ`; the FFT workspace holds complex values.
The FFT itself (`this->fft`, from `pfasst/contrib/fft.hpp`) is an
external collaborator that is not part of the verified core, so the
forward and backward transforms are passed in as function parameters —
every theorem below holds for arbitrary transforms. -/

/-- `cbrt` applied to a container size and truncated to `size_t`:
the integer cube root `⌊n^(1/3)⌋`. -/
def natCbrt (n : ℕ) : ℕ := Nat.findGreatest (fun k => k * k * k ≤ n) n

/-- A total number of degrees of freedom is a cube grid. -/
def IsCubeCount (n : ℕ) : Prop := ∃ k, k * k * k = n

/-- Modelled from the spec: `linearized_index` lives in
`pfasst/util.hpp`, which is not under `src/`; it maps a `(z, y, x)`
index tuple on a cube of edge `dim` to the row-major linear index. -/
def linearized_index (t : ℕ × ℕ × ℕ) (dim : ℕ) : ℕ :=
  t.1 * dim * dim + t.2.1 * dim + t.2.2

/-- `is_in_first_half` (spectral_transfer_3d_impl.hpp, line 101). -/
def is_in_first_half (coarse_dim : ℕ) (i : ℕ) : Bool :=
  decide (i < coarse_dim / 2)

/-- `get_fine_dim_back_index` (line 104). -/
def get_fine_dim_back_index (coarse_dim fine_dim : ℕ) (ci : ℕ) : ℕ :=
  fine_dim - fine_dim / 4 + ci - coarse_dim / 2

/-- `get_fine_dim_index` (line 107). -/
def get_fine_dim_index (coarse_dim fine_dim : ℕ) (ci : ℕ) : ℕ :=
  if is_in_first_half coarse_dim ci then ci
  else get_fine_dim_back_index coarse_dim fine_dim ci

/-- The triple loop of `interpolate_data` (lines 111–132): scatter the
scaled coarse spectrum into the zero-initialised fine workspace. -/
noncomputable def buildFineZ (coarse_z : List ℂ)
    (coarse_ndofs fine_ndofs coarse_dim fine_dim : ℕ) : List ℂ :=
  let c : ℂ := 1 / (coarse_ndofs : ℂ)
  (List.range coarse_dim).foldl (fun fz zi =>
    (List.range coarse_dim).foldl (fun fz yi =>
      (List.range coarse_dim).foldl (fun fz xi =>
        fz.set
          (linearized_index
            (get_fine_dim_index coarse_dim fine_dim zi,
             get_fine_dim_index coarse_dim fine_dim yi,
             get_fine_dim_index coarse_dim fine_dim xi) fine_dim)
          (c * coarse_z.getD (linearized_index (zi, yi, xi) coarse_dim) 0))
        fz) fz)
    (List.replicate fine_ndofs 0)

/-- `SpectralTransfer<3D>::interpolate_data` (lines 47–136).  Equal DOF
counts short-circuit into a plain copy; otherwise both sizes must be
cube grids with a per-dimension coarsening factor of exactly 2, else a
`runtime_error` is thrown. -/
noncomputable def interpolate_data_3d (forward : List ℚ → List ℂ)
    (backward : List ℂ → List ℚ) (coarse fine : List ℚ) :
    Except String (List ℚ) :=
  let coarse_ndofs := coarse.length
  let fine_ndofs := fine.length
  if fine_ndofs = coarse_ndofs then
    Except.ok coarse
  else
    let coarse_z := forward coarse
    let coarse_dim_dofs := natCbrt coarse_ndofs
    if coarse_dim_dofs * coarse_dim_dofs * coarse_dim_dofs ≠ coarse_ndofs then
      Except.error "coarse space not a cube"
    else
      let fine_dim_dofs := natCbrt fine_ndofs
      if fine_dim_dofs * fine_dim_dofs * fine_dim_dofs ≠ fine_ndofs then
        Except.error "fine space not a cube"
      else if fine_dim_dofs ≠ coarse_dim_dofs * 2 then
        Except.error "unsupported coarsening factor for FFTW interpolation"
      else
        Except.ok (backward
          (buildFineZ coarse_z coarse_ndofs fine_ndofs coarse_dim_dofs fine_dim_dofs))

/-- `SpectralTransfer<3D>::restrict_data` (lines 138–194).  Equal DOF
counts short-circuit into a plain copy; otherwise both sizes must be
cube grids with a per-dimension factor of exactly 2, and the coarse data
is overwritten by stride injection from the fine data. -/
def restrict_data_3d (coarse fine : List ℚ) : Except String (List ℚ) :=
  let coarse_ndofs := coarse.length
  let fine_ndofs := fine.length
  if fine_ndofs = coarse_ndofs then
    Except.ok fine
  else
    let coarse_dim_dofs := natCbrt coarse_ndofs
    if coarse_dim_dofs * coarse_dim_dofs * coarse_dim_dofs ≠ coarse_ndofs then
      Except.error "coarse space not a cube"
    else
      let fine_dim_dofs := natCbrt fine_ndofs
      if fine_dim_dofs * fine_dim_dofs * fine_dim_dofs ≠ fine_ndofs then
        Except.error "fine space not a cube"
      else
        let factor := fine_dim_dofs / coarse_dim_dofs
        if fine_dim_dofs ≠ coarse_dim_dofs * 2 then
          Except.error "unsupported coarsening factor for FFTW interpolation"
        else
          Except.ok ((List.range coarse_dim_dofs).foldl (fun cs yi =>
            (List.range coarse_dim_dofs).foldl (fun cs xi =>
              (List.range coarse_dim_dofs).foldl (fun cs zi =>
                cs.set (linearized_index (zi, yi, xi) coarse_dim_dofs)
                  (fine.getD (factor * linearized_index (zi, yi, xi) fine_dim_dofs) 0))
                cs) cs)
            coarse)

/-! ## 1D spectral transfer (spectral_1d_impl.hpp)

Data lives on `[0, N)` index sets, written as functions `ℕ → ℂ` (the
C++ arrays are real, which is the special case of real-valued
functions).  The FFT collaborator (`this->fft`) is not under `src/` and
is modelled from the spec: "forward DFT of coarse, pad with zeros …,
inverse DFT, scale by 1/N_c"; the source comment "FFTW is not
normalized" fixes the unnormalised FFTW conventions
`X[k] = Σ_n x[n]·e^(-2πikn/N)` (forward) and
`x[n] = Σ_k X[k]·e^(+2πikn/N)` (backward). -/

/-- The FFTW root of unity for size `N`: `e^(2πi/N)`. -/
noncomputable def zetaN (N : ℕ) : ℂ :=
  Complex.exp (2 * Real.pi * Complex.I / N)

/-- Modelled from the spec: unnormalised forward DFT,
`X[k] = Σ_n x[n]·e^(-2πikn/N)` (FFTW's `fft.forward`). -/
noncomputable def dftForward (N : ℕ) (x : ℕ → ℂ) (k : ℕ) : ℂ :=
  ∑ n ∈ Finset.range N, x n * (zetaN N)⁻¹ ^ (k * n)

/-- Modelled from the spec: unnormalised backward DFT,
`x[n] = Σ_k X[k]·e^(+2πikn/N)` (FFTW's `fft.backward`). -/
noncomputable def dftBackward (N : ℕ) (X : ℕ → ℂ) (n : ℕ) : ℂ :=
  ∑ k ∈ Finset.range N, X k * zetaN N ^ (k * n)

/-- The fine workspace filled by `Spectral1DTransfer::interpolate_data`
(spectral_1d_impl.hpp, lines 29–44): zero everywhere, the scaled
positive coarse frequencies `k < N_c/2` in the low half, and the scaled
negative coarse frequencies `N_c/2 + i` for `i = 1 .. N_c/2 − 1` at
`N_f − N_c/2 + i` (the coarse Nyquist coefficient `N_c/2` is never
copied). -/
noncomputable def interpZ (coarse_ndofs fine_ndofs : ℕ) (c : ℕ → ℂ) (k : ℕ) : ℂ :=
  if k < coarse_ndofs / 2 then
    (1 / (coarse_ndofs : ℂ)) * dftForward coarse_ndofs c k
  else if fine_ndofs - coarse_ndofs / 2 < k ∧ k < fine_ndofs then
    (1 / (coarse_ndofs : ℂ)) * dftForward coarse_ndofs c (k - (fine_ndofs - coarse_ndofs))
  else 0

/-- `Spectral1DTransfer::interpolate_data` (lines 16–47): forward DFT of
the coarse data, zero-padded spectrum per `interpZ`, backward DFT onto
the fine grid. -/
noncomputable def interpolate_data (coarse_ndofs fine_ndofs : ℕ) (c : ℕ → ℂ) (n : ℕ) : ℂ :=
  dftBackward fine_ndofs (interpZ coarse_ndofs fine_ndofs c) n

/-- `Spectral1DTransfer::restrict_data` (lines 49–64): stride injection
in physical space, `coarse[i] = fine[(N_f / N_c) · i]`. -/
noncomputable def restrict_data (coarse_ndofs fine_ndofs : ℕ) (f : ℕ → ℂ) (i : ℕ) : ℂ :=
  f ((fine_ndofs / coarse_ndofs) * i)

/-- The concrete coarse input of the round-trip counterexample:
`c = (1, 0)` on the 2-point coarse grid. -/
noncomputable def roundTripCex : ℕ → ℂ := fun n => if n = 0 then 1 else 0

/-! ## Concrete instances used by witnesses and counterexamples -/

/-- A status record with all fields zeroed. -/
def zeroStatus : Status :=
  { time := 0, dt := 0, t_end := 0, max_iterations := 0, iteration := 0,
    abs_res_norm := 0, rel_res_norm := 0, converged := false,
    previous_converged := false }

/-- A freshly constructed sweeper: nothing attached, no containers. -/
def emptySweeper : Sweeper :=
  { quadrature := none, status := none, factory_size := 0, states := [],
    previous_states := [], end_state := none, tau := [], residuals := [],
    f_expl := [], f_impl := [], abs_residual_tol := 0,
    rel_residual_tol := 0, abs_res_norms := [], rel_res_norms := [] }

/-- A sweeper ready for `setup`: status and a 2-node quadrature
attached, spatial size 3. -/
def setupSweeper : Sweeper :=
  { emptySweeper with
    status := some zeroStatus,
    quadrature := some { num_nodes := 2, right_is_node := true, b_vec := [], q_mat := [] },
    factory_size := 3 }

/-- A sweeper whose quadrature includes the right endpoint, with
distinct data at the two nodes. -/
def rightNodeSweeper : Sweeper :=
  { emptySweeper with
    quadrature := some { num_nodes := 1, right_is_node := true, b_vec := [], q_mat := [] },
    states := [some [3], some [7]], end_state := some [0] }

/-- A sweeper whose quadrature does not include the right endpoint;
its RHS data makes the spec's `b_vec` end-state formula evaluate to
`[1]` while `end_state` holds `[0]`. -/
def nonNodeSweeper : Sweeper :=
  { emptySweeper with
    quadrature := some { num_nodes := 1, right_is_node := false,
                         b_vec := [1/2, 1/2], q_mat := [] },
    states := [some [0], some [0]],
    f_expl := [some [1], some [1]],
    f_impl := [some [0], some [0]],
    end_state := some [0] }

/-- A sweeper mid-iteration, used to exercise the full convergence
check: two residuals, two states, absolute tolerance `1/2`. -/
def convSweeper : Sweeper :=
  { emptySweeper with
    status := some zeroStatus,
    residuals := [some [1/4], some [1/8]],
    states := [some [1], some [2]],
    abs_residual_tol := 1/2 }

/-- Preliminary-check scenario A: last residual `[1]`, last state
`[1/2]`, relative tolerance 1 (relative norm 2, not converged). -/
def preCheckA : Sweeper :=
  { emptySweeper with
    residuals := [some [1]],
    states := [some [1/2]],
    rel_residual_tol := 1 }

/-- Preliminary-check scenario B: same last residual and tolerances as
scenario A but last state `[2]` (relative norm `1/2`, converged). -/
def preCheckB : Sweeper :=
  { emptySweeper with
    residuals := [some [1]],
    states := [some [2]],
    rel_residual_tol := 1 }

/-! ## List helper lemmas for the convergence check -/

theorem length_listResize (l : List ℚ) (n : ℕ) : (listResize l n).length = n := by
  rw [listResize, List.length_append, List.length_take, List.length_replicate]
  omega

theorem foldlSet_length (g : ℕ → ℚ) (ks : List ℕ) :
    ∀ a : List ℚ, (ks.foldl (fun l m => l.set m (g m)) a).length = a.length := by
  induction ks with
  | nil => intro a; rfl
  | cons k ks ih => intro a; rw [List.foldl_cons, ih, List.length_set]

theorem foldlSet_range_getD (g : ℕ → ℚ) :
    ∀ (k : ℕ) (a : List ℚ), k ≤ a.length → ∀ j : ℕ,
      ((List.range k).foldl (fun l m => l.set m (g m)) a).getD j 0
        = if j < k then g j else a.getD j 0 := by
  intro k
  induction k with
  | zero => intro a _ j; simp
  | succ k ih =>
    intro a ha j
    rw [List.range_succ, List.foldl_append, List.foldl_cons, List.foldl_nil]
    have hlen : ((List.range k).foldl (fun l m => l.set m (g m)) a).length = a.length :=
      foldlSet_length g _ a
    rw [List.getD_eq_getElem?_getD, List.getElem?_set]
    by_cases hkj : k = j
    · subst hkj
      rw [if_pos rfl, if_pos (by omega), if_pos (by omega)]
      rfl
    · rw [if_neg hkj, ← List.getD_eq_getElem?_getD, ih a (by omega) j]
      by_cases hj : j < k
      · rw [if_pos hj, if_pos (by omega)]
      · rw [if_neg hj, if_neg (by omega)]

theorem getLastD_eq_getD {α : Type} (l : List α) (d : α) :
    l.getLastD d = l.getD (l.length - 1) d := by
  rw [List.getLastD_eq_getLast?, List.getLast?_eq_getElem?, List.getD_eq_getElem?_getD]

/-- The norm-cache computation of the full convergence check: resizing
the cache, writing the back entry and then overwriting entries
`0 .. num−2` produces exactly the list `[g 0, …, g (num−1)]`. -/
theorem conv_cache_eq (g : ℕ → ℚ) (cache target : List ℚ) (num : ℕ)
    (hnum : 0 < num) (hlen : target.length = num)
    (hget : ∀ j, j < num → target.getD j 0 = g j) :
    (List.range (num - 1)).foldl (fun l m => l.set m (g m))
        ((listResize cache num).set (num - 1) (g (num - 1)))
      = target := by
  have hL0 : (listResize cache num).length = num := length_listResize cache num
  have hL1 : ((listResize cache num).set (num - 1) (g (num - 1))).length = num := by
    rw [List.length_set, hL0]
  have hLf : ((List.range (num - 1)).foldl (fun l m => l.set m (g m))
      ((listResize cache num).set (num - 1) (g (num - 1)))).length = num := by
    rw [foldlSet_length, hL1]
  apply List.ext_getElem (by rw [hLf, hlen])
  intro j h1 h2
  have hj : j < num := by rwa [hLf] at h1
  rw [← List.getD_eq_getElem _ 0 h1, ← List.getD_eq_getElem _ 0 h2]
  rw [foldlSet_range_getD g (num - 1) _ (by omega) j]
  by_cases hcase : j < num - 1
  · rw [if_pos hcase, hget j hj]
  · rw [if_neg hcase]
    have hj1 : j = num - 1 := by omega
    subst hj1
    rw [List.getD_eq_getElem?_getD, List.getElem?_set, if_pos rfl, if_pos (by omega)]
    rw [hget _ hj]
    rfl

/-- The decision of the preliminary check, read off the definition: it
is a function of the last residual, the last state and the two
tolerances only. -/
theorem convergedAfter_true_snd (s : Sweeper) :
    (convergedAfter s true).2
      = if 0 < s.abs_residual_tol ∨ 0 < s.rel_residual_tol then
          (decide (encNorm (s.residuals.getLastD none) < s.abs_residual_tol)
           || decide (encNorm (s.residuals.getLastD none)
                / encNorm (s.states.getLastD none) < s.rel_residual_tol))
        else false := by
  by_cases h : 0 < s.abs_residual_tol ∨ 0 < s.rel_residual_tol <;>
    simp [convergedAfter, h]

/-- The preliminary check never touches the status record. -/
theorem convergedAfter_true_status (s : Sweeper) :
    (convergedAfter s true).1.status = s.status := by
  by_cases h : 0 < s.abs_residual_tol ∨ 0 < s.rel_residual_tol <;>
    simp [convergedAfter, h]

/-- `compute_residuals` writes only the `residuals` field. -/
theorem compute_residuals_spec_status (s : Sweeper) (b : Bool) :
    (compute_residuals_spec s b).status = s.status := rfl

/-! ## C7 — setup allocates M+1 zeroed containers -/

/-- C7: after `Sweeper::setup()` succeeds on a quadrature with `M`
nodes, the vectors `states`, `previous_states`, `tau` and `residuals`
each have exactly `M+1` entries, every entry as well as `end_state` is a
non-null container, and every such container holds all zeros. -/
theorem setup_allocates_zeroed (s : Sweeper) (st : Status) (q : Quadrature)
    (hst : s.status = some st) (hq : s.quadrature = some q) :
    (setup s).2 = none
    ∧ (setup s).1.states.length = q.num_nodes + 1
    ∧ (setup s).1.previous_states.length = q.num_nodes + 1
    ∧ (setup s).1.tau.length = q.num_nodes + 1
    ∧ (setup s).1.residuals.length = q.num_nodes + 1
    ∧ (∀ e ∈ (setup s).1.states, e = some (List.replicate s.factory_size 0))
    ∧ (∀ e ∈ (setup s).1.previous_states, e = some (List.replicate s.factory_size 0))
    ∧ (∀ e ∈ (setup s).1.tau, e = some (List.replicate s.factory_size 0))
    ∧ (∀ e ∈ (setup s).1.residuals, e = some (List.replicate s.factory_size 0))
    ∧ (setup s).1.end_state = some (List.replicate s.factory_size 0) := by
  obtain ⟨qd, stt, fs, st1, ps, es, ta, re, fe, fi, at1, rt, an, rn⟩ := s
  replace hst : stt = some st := hst
  replace hq : qd = some q := hq
  subst hst
  subst hq
  refine ⟨rfl, ?_, ?_, ?_, ?_, ?_, ?_, ?_, ?_, rfl⟩ <;>
    simp [setup, List.mem_replicate]

/-- Witness for C7: the concrete `setupSweeper` (status attached,
2-node quadrature, spatial size 3) satisfies the setup contract. -/
theorem setup_allocates_zeroed_witness :
    (setup setupSweeper).2 = none
    ∧ (setup setupSweeper).1.states.length = 3
    ∧ (setup setupSweeper).1.end_state = some [0, 0, 0] :=
  have h := setup_allocates_zeroed setupSweeper zeroStatus
    { num_nodes := 2, right_is_node := true, b_vec := [], q_mat := [] } rfl rfl
  ⟨h.1, h.2.1, h.2.2.2.2.2.2.2.2.2⟩

/-! ## C8 — errors before setup, state untouched -/

/-- C8: calling `setup()` without an attached status, or without an
attached quadrature, and querying `initial_state`/`get_initial_state`
before setup (empty `states`) each fail with an exception surfaced to
the caller; in the setup cases the sweeper is returned unchanged (the
throw happens before any allocation). -/
theorem setup_and_initial_state_errors :
    (∀ s : Sweeper, s.status = none → setup s = (s, some "Status not yet set."))
    ∧ (∀ s : Sweeper, ∀ st : Status, s.status = some st → s.quadrature = none →
        setup s = (s, some "Quadrature not yet set."))
    ∧ (∀ s : Sweeper, s.states = [] →
        initial_state s = Except.error "sweeper not setup before querying initial state"
        ∧ get_initial_state s = Except.error "sweeper not setup before querying initial state") := by
  refine ⟨?_, ?_, ?_⟩
  · intro s h
    simp [setup, h]
  · intro s st h hq
    simp [setup, h, hq]
  · intro s h
    simp [initial_state, get_initial_state, h]

/-- Witness for C8: the freshly constructed sweeper triggers all three
error paths. -/
theorem setup_and_initial_state_errors_witness :
    setup emptySweeper = (emptySweeper, some "Status not yet set.")
    ∧ setup { emptySweeper with status := some zeroStatus }
        = ({ emptySweeper with status := some zeroStatus }, some "Quadrature not yet set.")
    ∧ initial_state emptySweeper
        = Except.error "sweeper not setup before querying initial state" :=
  ⟨setup_and_initial_state_errors.1 emptySweeper rfl,
   setup_and_initial_state_errors.2.1 _ zeroStatus rfl rfl,
   (setup_and_initial_state_errors.2.2 emptySweeper rfl).1⟩

/-! ## C2 — end-state integration -/

/-- C2 counterexample: on a quadrature whose right endpoint is not a
node, `integrate_end_state` does not produce the spec's `b_vec` formula
value; it throws, leaving `end_state` at `[0]` while the formula value
is `[1]`. -/
theorem integrate_end_state_cex :
    (integrate_end_state nonNodeSweeper 1).2.isSome = true
    ∧ (integrate_end_state nonNodeSweeper 1).1.end_state
        ≠ some (end_state_spec_formula nonNodeSweeper 1)
    ∧ end_state_spec_formula nonNodeSweeper 1 = [1] := by
  have hf : end_state_spec_formula nonNodeSweeper 1 = [1] := by
    simp [end_state_spec_formula, nonNodeSweeper, emptySweeper, List.range_succ,
      vadd, vscale]
    norm_num
  refine ⟨?_, ?_, hf⟩
  · rfl
  · rw [hf]
    simp [integrate_end_state, nonNodeSweeper, emptySweeper]

/-- C2 (amended): after `integrate_end_state(dt)`, if the quadrature's
right endpoint is a node then `end_state` is a bit-equal copy of the
data of `states[M]` and no error is raised; otherwise the call throws a
`runtime_error` (the `b_vec` path of the spec is not implemented) and
the sweeper is unchanged. -/
theorem integrate_end_state_behavior (s : Sweeper) (q : Quadrature) (dt : ℚ)
    (hq : s.quadrature = some q) :
    (q.right_is_node = true →
      (integrate_end_state s dt).2 = none
      ∧ (integrate_end_state s dt).1.end_state = some ((s.states.getLastD none).getD [])
      ∧ (integrate_end_state s dt).1.states = s.states)
    ∧ (q.right_is_node = false →
      integrate_end_state s dt
        = (s, some "integration of end state for quadrature not including right time interval boundary")) := by
  constructor <;> intro h <;> simp [integrate_end_state, hq, h]

/-- Witness for C2: on `rightNodeSweeper` (right endpoint is a node)
the end state becomes the copy of the last node value `[7]`. -/
theorem integrate_end_state_behavior_witness :
    rightNodeSweeper.quadrature
      = some { num_nodes := 1, right_is_node := true, b_vec := [], q_mat := [] }
    ∧ (integrate_end_state rightNodeSweeper 1).2 = none
    ∧ (integrate_end_state rightNodeSweeper 1).1.end_state = some [7] :=
  have h := (integrate_end_state_behavior rightNodeSweeper
    { num_nodes := 1, right_is_node := true, b_vec := [], q_mat := [] } 1 rfl).1 rfl
  ⟨rfl, h.1, h.2.1⟩

/-! ## C9 — van der Pol Gauss-Lobatto acceptance threshold -/

/-- C9 counterexample: with `M = 3` Lobatto nodes the test accepts the
rate `15/4 = 3.75` (its threshold is `0.95·2·3 − 2 = 3.7`), although
`3.75` is below the claimed threshold `0.95·(2·3 − 2) = 3.8`. -/
theorem vdp_lobatto_threshold_cex :
    gauss_lobatto_accepts 3 (15/4) = true
    ∧ ¬ ((95/100 : ℚ) * (2 * (3 : ℚ) - 2) ≤ 15/4) := by
  constructor
  · norm_num [gauss_lobatto_accepts]
  · norm_num

/-- C9 (amended): in the Gauss-Lobatto scenario the parameters are
`niters = 2M−2`, `Tend = 0.66`, `nsteps = {7,9,11,13}`, and a measured
convergence rate `r` is accepted exactly when `r ≥ 0.95·2·M − 2` (the
test's expression `0.95* 2 * nnodes - 2`, not `0.95·(2M−2)`). -/
theorem vdp_lobatto_acceptance (nnodes : ℕ) (r : ℚ) :
    set_parameters QuadratureType.GaussLobatto nnodes
      = { niters := 2 * nnodes - 2, tend := 66/100, nsteps := [7, 9, 11, 13],
          nnodes_in_call := nnodes }
    ∧ (gauss_lobatto_accepts nnodes r = true
        ↔ (95/100 : ℚ) * 2 * (nnodes : ℚ) - 2 ≤ r) :=
  ⟨rfl, by simp [gauss_lobatto_accepts]⟩

/-! ## C1 — the full convergence check -/

/-- C1: on a sweeper with at least one positive residual tolerance, the
full check `converged(pre_check=false)` returns true iff the maximum
over all nodes of the residual infinity norms is below the absolute
tolerance, or the maximum over all nodes of the residual-to-state norm
ratios is below the relative tolerance; with neither tolerance set it
returns false.  (The states are assumed non-degenerate — positive
infinity norms — so that the rational division matches the `double`
division of the source, and the status must be attached as the full
check dereferences it.) -/
theorem converged_full_check (s : Sweeper)
    (hne : s.residuals ≠ [])
    (hlen : s.states.length = s.residuals.length)
    (hst : s.status.isSome = true)
    (hpos : ∀ o ∈ s.states, 0 < encNorm o) :
    ((0 < s.abs_residual_tol ∨ 0 < s.rel_residual_tol) →
      ((convergedAfter s false).2 = true ↔
        (maxElem (s.residuals.map encNorm) < s.abs_residual_tol
         ∨ maxElem (List.zipWith (fun r st => encNorm r / encNorm st) s.residuals s.states)
             < s.rel_residual_tol)))
    ∧ (¬ (0 < s.abs_residual_tol ∨ 0 < s.rel_residual_tol) →
      (convergedAfter s false).2 = false) := by
  have hnum : 0 < s.residuals.length := List.length_pos.mpr hne
  have hA : (List.range (s.residuals.length - 1)).foldl
      (fun l m => l.set m (encNorm (s.residuals.getD m none)))
      ((listResize s.abs_res_norms s.residuals.length).set
        (s.residuals.length - 1) (encNorm (s.residuals.getLastD none)))
      = s.residuals.map encNorm := by
    rw [getLastD_eq_getD]
    apply conv_cache_eq _ _ _ _ hnum (by rw [List.length_map])
    intro j hj
    rw [List.getD_eq_getElem _ 0 (by rwa [List.length_map]),
      List.getElem_map, ← List.getD_eq_getElem _ none hj]
  have hR : (List.range (s.residuals.length - 1)).foldl
      (fun l m => l.set m (encNorm (s.residuals.getD m none) / encNorm (s.states.getD m none)))
      ((listResize s.rel_res_norms s.residuals.length).set
        (s.residuals.length - 1)
        (encNorm (s.residuals.getLastD none) / encNorm (s.states.getLastD none)))
      = List.zipWith (fun r st => encNorm r / encNorm st) s.residuals s.states := by
    rw [getLastD_eq_getD, getLastD_eq_getD, hlen]
    apply conv_cache_eq _ _ _ _ hnum (by rw [List.length_zipWith, hlen]; omega)
    intro j hj
    rw [List.getD_eq_getElem _ 0 (by rw [List.length_zipWith, hlen]; omega),
      List.getElem_zipWith, ← List.getD_eq_getElem _ none hj,
      ← List.getD_eq_getElem _ none (by omega : j < s.states.length)]
  constructor
  · intro htol
    have hsnd : (convergedAfter s false).2
        = (decide (maxElem (s.residuals.map encNorm) < s.abs_residual_tol)
           || decide (maxElem (List.zipWith (fun r st => encNorm r / encNorm st)
                s.residuals s.states) < s.rel_residual_tol)) := by
      simp only [convergedAfter, Bool.false_eq_true, if_false, if_pos htol, hA, hR]
    rw [hsnd, Bool.or_eq_true, decide_eq_true_eq, decide_eq_true_eq]
  · intro htol
    simp only [convergedAfter, Bool.false_eq_true, if_false, if_neg htol]

/-- Witness for C1: the concrete `convSweeper` (absolute tolerance
`1/2`, two residuals, two states) satisfies the full-check contract. -/
theorem converged_full_check_witness :
    convSweeper.residuals ≠ []
    ∧ ((convergedAfter convSweeper false).2 = true ↔
        (maxElem (convSweeper.residuals.map encNorm) < convSweeper.abs_residual_tol
         ∨ maxElem (List.zipWith (fun r st => encNorm r / encNorm st)
              convSweeper.residuals convSweeper.states) < convSweeper.rel_residual_tol)) := by
  refine ⟨by simp [convSweeper, emptySweeper], ?_⟩
  refine (converged_full_check convSweeper (by simp [convSweeper, emptySweeper]) rfl rfl ?_).1 ?_
  · intro o ho
    simp only [convSweeper, emptySweeper, List.mem_cons, List.not_mem_nil, or_false] at ho
    rcases ho with rfl | rfl <;> norm_num [encNorm, norm0]
  · left
    norm_num [convSweeper, emptySweeper]

/-! ## C10 — the preliminary check and the status record -/

/-- C10 counterexample: the preliminary check does not decide from the
last node's residual alone — `preCheckA` and `preCheckB` share the last
residual and both tolerances but differ in the last state, and the
decisions differ (the relative norm divides by the state norm). -/
theorem pre_check_not_residual_alone_cex :
    preCheckA.residuals.getLastD none = preCheckB.residuals.getLastD none
    ∧ preCheckA.abs_residual_tol = preCheckB.abs_residual_tol
    ∧ preCheckA.rel_residual_tol = preCheckB.rel_residual_tol
    ∧ (convergedAfter preCheckA true).2 = false
    ∧ (convergedAfter preCheckB true).2 = true := by
  refine ⟨rfl, rfl, rfl, ?_, ?_⟩
  · rw [convergedAfter_true_snd]
    norm_num [preCheckA, emptySweeper, encNorm, norm0, abs_of_pos]
  · rw [convergedAfter_true_snd]
    norm_num [preCheckB, emptySweeper, encNorm, norm0, abs_of_pos]

/-- C10 (amended): `converged(pre_check=true)` never modifies the
status record — `status.abs_res_norm` and `status.rel_res_norm` are
written only by the full check — and the preliminary decision is a
function of the last node's residual and state (through the relative
norm) and the tolerances alone. -/
theorem pre_check_status_frame :
    (∀ s : Sweeper, (converged s true).1.status = s.status)
    ∧ (∀ s1 s2 : Sweeper,
        s1.residuals.getLastD none = s2.residuals.getLastD none →
        s1.states.getLastD none = s2.states.getLastD none →
        s1.abs_residual_tol = s2.abs_residual_tol →
        s1.rel_residual_tol = s2.rel_residual_tol →
        (convergedAfter s1 true).2 = (convergedAfter s2 true).2) := by
  constructor
  · intro s
    show (convergedAfter (compute_residuals_spec s true) true).1.status = s.status
    rw [convergedAfter_true_status, compute_residuals_spec_status]
  · intro s1 s2 h1 h2 h3 h4
    rw [convergedAfter_true_snd, convergedAfter_true_snd, h1, h2, h3, h4]

/-- Witness for C10: the frame and determinism statements instantiated
on `preCheckA` (the second with a sweeper that differs in an unrelated
field). -/
theorem pre_check_status_frame_witness :
    (converged preCheckA true).1.status = preCheckA.status
    ∧ (convergedAfter preCheckA true).2
        = (convergedAfter { preCheckA with factory_size := 5 } true).2 :=
  ⟨pre_check_status_frame.1 preCheckA,
   pre_check_status_frame.2 preCheckA { preCheckA with factory_size := 5 } rfl rfl rfl rfl⟩

/-! ## Communicator lemmas -/

theorem inFlight_append_issue (tr : List MpiEvent) (p t : ℤ) (i : ℕ) :
    inFlight (tr ++ [MpiEvent.issue p t i]) = inFlight tr ++ [((p, t), i)] := by
  simp [inFlight, List.foldl_append, inFlightStep]

theorem inFlight_append_wait (tr : List MpiEvent) (i : ℕ) :
    inFlight (tr ++ [MpiEvent.wait i])
      = (inFlight tr).filter (fun e => decide (e.2 ≠ i)) := by
  simp [inFlight, List.foldl_append, inFlightStep]

theorem lookupReq_eq_none_iff (l : List ((ℤ × ℤ) × ℕ)) (k : ℤ × ℤ) :
    lookupReq l k = none ↔ ∀ e ∈ l, e.1 ≠ k := by
  simp [lookupReq, List.find?_eq_none]

theorem lookupReq_some_mem {l : List ((ℤ × ℤ) × ℕ)} {k : ℤ × ℤ} {v : ℕ}
    (h : lookupReq l k = some v) : (k, v) ∈ l := by
  rw [lookupReq] at h
  rcases Option.map_eq_some'.mp h with ⟨e, hfind, hev⟩
  have h1 : e.1 = k := by simpa using List.find?_some hfind
  have h2 : e ∈ l := List.mem_of_find?_eq_some hfind
  have he : e = (k, v) := by
    obtain ⟨e1, e2⟩ := e
    simp only at h1 hev
    rw [h1, hev]
  rwa [he] at h2

theorem entry_unique_key {l : List ((ℤ × ℤ) × ℕ)}
    (h : l.Pairwise (fun a b => a.1 ≠ b.1 ∧ a.2 ≠ b.2)) :
    ∀ a ∈ l, ∀ b ∈ l, a.1 = b.1 → a = b := by
  induction l with
  | nil => simp
  | cons x xs ih =>
    rcases List.pairwise_cons.mp h with ⟨hx, hxs⟩
    intro a ha b hb hk
    rcases List.mem_cons.mp ha with ha1 | ha1 <;> rcases List.mem_cons.mp hb with hb1 | hb1
    · rw [ha1, hb1]
    · rw [ha1] at hk
      exact absurd hk (hx b hb1).1
    · rw [hb1] at hk
      exact absurd hk.symm (hx a ha1).1
    · exact ih hxs a ha1 b hb1 hk

theorem entry_unique_id {l : List ((ℤ × ℤ) × ℕ)}
    (h : l.Pairwise (fun a b => a.1 ≠ b.1 ∧ a.2 ≠ b.2)) :
    ∀ a ∈ l, ∀ b ∈ l, a.2 = b.2 → a = b := by
  induction l with
  | nil => simp
  | cons x xs ih =>
    rcases List.pairwise_cons.mp h with ⟨hx, hxs⟩
    intro a ha b hb hk
    rcases List.mem_cons.mp ha with ha1 | ha1 <;> rcases List.mem_cons.mp hb with hb1 | hb1
    · rw [ha1, hb1]
    · rw [ha1] at hk
      exact absurd hk (hx b hb1).2
    · rw [hb1] at hk
      exact absurd hk.symm (hx a ha1).2
    · exact ih hxs a ha1 b hb1 hk

theorem mem_setReq {l : List ((ℤ × ℤ) × ℕ)} {k : ℤ × ℤ} {old v : ℕ}
    (hmem : (k, old) ∈ l) (e : (ℤ × ℤ) × ℕ) :
    e ∈ setReq l k v ↔ ((e ∈ l ∧ e.1 ≠ k) ∨ e = (k, v)) := by
  constructor
  · intro he
    rcases List.mem_map.mp he with ⟨y, hy, rfl⟩
    by_cases hyk : y.1 = k
    · right
      simp [hyk]
    · left
      simp only [if_neg hyk]
      exact ⟨hy, hyk⟩
  · intro he
    rcases he with ⟨hel, hek⟩ | rfl
    · exact List.mem_map.mpr ⟨e, hel, by simp [hek]⟩
    · exact List.mem_map.mpr ⟨(k, old), hmem, by simp⟩

theorem setReq_pairwise {l : List ((ℤ × ℤ) × ℕ)} {k : ℤ × ℤ} {v : ℕ}
    (hv : ∀ e ∈ l, e.2 < v)
    (h : l.Pairwise (fun a b => a.1 ≠ b.1 ∧ a.2 ≠ b.2)) :
    (setReq l k v).Pairwise (fun a b => a.1 ≠ b.1 ∧ a.2 ≠ b.2) := by
  induction l with
  | nil => simp [setReq]
  | cons x xs ih =>
    rcases List.pairwise_cons.mp h with ⟨hx, hxs⟩
    have hv1 : ∀ e ∈ xs, e.2 < v := fun e he => hv e (List.mem_cons_of_mem _ he)
    rw [setReq, List.map_cons]
    refine List.pairwise_cons.mpr ⟨?_, ih hv1 hxs⟩
    intro b hb
    rcases List.mem_map.mp hb with ⟨y, hy, rfl⟩
    by_cases hxk : x.1 = k <;> by_cases hyk : y.1 = k
    · exact absurd (hxk.trans hyk.symm) (hx y hy).1
    · simp only [if_pos hxk, if_neg hyk]
      exact ⟨fun hc => hyk hc.symm, fun hc => (ne_of_lt (hv1 y hy)) hc.symm⟩
    · simp only [if_neg hxk, if_pos hyk]
      exact ⟨hxk, ne_of_lt (hv x (List.mem_cons_self x xs))⟩
    · simp only [if_neg hxk, if_neg hyk]
      exact hx y hy

theorem goodComm_init : GoodComm initComm := by
  refine ⟨List.Pairwise.nil, List.Pairwise.nil, ?_, ?_⟩ <;> simp [initComm, inFlight]

theorem goodComm_issueRequest (s : MpiP2P) (p t : ℤ) (h : GoodComm s) :
    GoodComm (issueRequest s p t) := by
  obtain ⟨hk, hf, hm, hfresh⟩ := h
  cases hlk : lookupReq s.requests (p, t) with
  | none =>
    have hnone := (lookupReq_eq_none_iff _ _).mp hlk
    simp only [issueRequest, hlk]
    refine ⟨?_, ?_, ?_, ?_⟩
    · rw [List.pairwise_append]
      refine ⟨hk, by simp, ?_⟩
      intro a ha b hb
      simp only [List.mem_singleton] at hb
      subst hb
      exact ⟨hnone a ha, ne_of_lt (hfresh a ha)⟩
    · rw [inFlight_append_issue, List.pairwise_append]
      refine ⟨hf, by simp, ?_⟩
      intro a ha b hb
      simp only [List.mem_singleton] at hb
      subst hb
      exact hnone a ((hm a).mp ha)
    · intro e
      rw [inFlight_append_issue, List.mem_append, List.mem_append, hm e]
    · intro e he
      rcases List.mem_append.mp he with he | he
      · exact Nat.lt_succ_of_lt (hfresh e he)
      · simp only [List.mem_singleton] at he
        subst he
        exact Nat.lt_succ_self _
  | some old =>
    have hmem : ((p, t), old) ∈ s.requests := lookupReq_some_mem hlk
    simp only [issueRequest, hlk]
    have htr : s.trace ++ [MpiEvent.wait old, MpiEvent.issue p t s.next_id]
        = (s.trace ++ [MpiEvent.wait old]) ++ [MpiEvent.issue p t s.next_id] := by
      simp
    have hIF : inFlight (s.trace ++ [MpiEvent.wait old, MpiEvent.issue p t s.next_id])
        = ((inFlight s.trace).filter (fun e => decide (e.2 ≠ old)))
          ++ [((p, t), s.next_id)] := by
      rw [htr, inFlight_append_issue, inFlight_append_wait]
    refine ⟨setReq_pairwise hfresh hk, ?_, ?_, ?_⟩
    · rw [hIF, List.pairwise_append]
      refine ⟨hf.sublist (List.filter_sublist _), by simp, ?_⟩
      intro a ha b hb
      simp only [List.mem_singleton] at hb
      subst hb
      rcases List.mem_filter.mp ha with ⟨ha1, ha2⟩
      have ha2n : a.2 ≠ old := by simpa using ha2
      intro hak
      have haE : a = ((p, t), old) :=
        entry_unique_key hk a ((hm a).mp ha1) ((p, t), old) hmem (by simpa using hak)
      exact ha2n (by rw [haE])
    · intro e
      rw [hIF, List.mem_append]
      constructor
      · rintro (hef | he)
        · rcases List.mem_filter.mp hef with ⟨he1, he2⟩
          have heR := (hm e).mp he1
          have he2n : e.2 ≠ old := by simpa using he2
          have hek : e.1 ≠ (p, t) := by
            intro hek
            have heE : e = ((p, t), old) :=
              entry_unique_key hk e heR ((p, t), old) hmem (by simpa using hek)
            exact he2n (by rw [heE])
          exact (mem_setReq hmem e).mpr (Or.inl ⟨heR, hek⟩)
        · simp only [List.mem_singleton] at he
          subst he
          exact (mem_setReq hmem _).mpr (Or.inr rfl)
      · intro he
        rcases (mem_setReq hmem e).mp he with ⟨heR, hek⟩ | rfl
        · left
          refine List.mem_filter.mpr ⟨(hm e).mpr heR, ?_⟩
          simp only [decide_eq_true_eq]
          intro he2
          have heE : e = ((p, t), old) :=
            entry_unique_id hk e heR ((p, t), old) hmem (by simpa using he2)
          exact hek (by rw [heE])
        · right
          simp
    · intro e he
      rcases (mem_setReq hmem e).mp he with ⟨heR, _⟩ | rfl
      · exact Nat.lt_succ_of_lt (hfresh e heR)
      · exact Nat.lt_succ_self _

theorem cleanupLoop_eq_append (reqs : List ((ℤ × ℤ) × ℕ)) :
    ∀ tr, cleanupLoop reqs tr = tr ++ reqs.map (fun e => MpiEvent.wait e.2) := by
  induction reqs with
  | nil =>
    intro tr
    simp [cleanupLoop]
  | cons r rest ih =>
    intro tr
    rw [cleanupLoop, ih]
    simp

theorem inFlight_drain (reqs : List ((ℤ × ℤ) × ℕ)) :
    ∀ tr, (∀ e ∈ inFlight tr, e ∈ reqs) →
      inFlight (tr ++ reqs.map (fun e => MpiEvent.wait e.2)) = [] := by
  induction reqs with
  | nil =>
    intro tr hsub
    simp only [List.map_nil, List.append_nil]
    exact List.eq_nil_iff_forall_not_mem.mpr (fun e he => (List.not_mem_nil e) (hsub e he))
  | cons r rest ih =>
    intro tr hsub
    rw [List.map_cons,
      show tr ++ (MpiEvent.wait r.2 :: rest.map (fun e => MpiEvent.wait e.2))
        = (tr ++ [MpiEvent.wait r.2]) ++ rest.map (fun e => MpiEvent.wait e.2) by simp]
    apply ih
    intro e he
    rw [inFlight_append_wait] at he
    rcases List.mem_filter.mp he with ⟨he1, he2⟩
    have he2n : e.2 ≠ r.2 := by simpa using he2
    rcases List.mem_cons.mp (hsub e he1) with rfl | hmem
    · exact absurd rfl he2n
    · exact hmem

theorem goodComm_cleanup (s : MpiP2P) (h : GoodComm s) : GoodComm (cleanup s) := by
  obtain ⟨hk, hf, hm, hfresh⟩ := h
  have hIF : inFlight (cleanup s).trace = [] := by
    show inFlight (cleanupLoop s.requests s.trace) = []
    rw [cleanupLoop_eq_append]
    exact inFlight_drain s.requests s.trace (fun e he => (hm e).mp he)
  refine ⟨List.Pairwise.nil, ?_, ?_, ?_⟩
  · rw [hIF]
    exact List.Pairwise.nil
  · intro e
    rw [hIF]
    simp [cleanup]
  · intro e he
    simp [cleanup] at he

theorem goodComm_applyOp (s : MpiP2P) (op : CommOp) (h : GoodComm s) :
    GoodComm (applyOp s op) := by
  cases op with
  | isend p t => exact goodComm_issueRequest s p t h
  | isend_status p t => exact goodComm_issueRequest s p t h
  | irecv p t => exact goodComm_issueRequest s p t h
  | irecv_status p t => exact goodComm_issueRequest s p t h
  | cleanup => exact goodComm_cleanup s h

theorem goodComm_runOps (ops : List CommOp) : GoodComm (runOps ops) := by
  suffices h : ∀ s, GoodComm s → GoodComm (ops.foldl applyOp s) from h initComm goodComm_init
  induction ops with
  | nil => intro s hs; exact hs
  | cons op rest ih =>
    intro s hs
    rw [List.foldl_cons]
    exact ih (applyOp s op) (goodComm_applyOp s op hs)

/-! ## C5 — cleanup's postcondition and the erase-during-iteration bug

The claimed postcondition — request map empty, every outstanding
request waited to completion — is exactly what the trailing
`assert(this->_requests.size() == 0)` in `MpiP2P::cleanup` demands, but
the loop that is supposed to establish it erases entries of the
`std::map` it is range-iterating (`this->_requests.erase(req.first)` at
line 121), invalidating the loop iterator: its increment is undefined
behaviour after the first erase, so the program does not guarantee the
postcondition on any non-empty map.  The claim states the evident
intent and the code is the slip. -/

/-- C5 (code bug): at the failing input — a communicator holding one
outstanding request, produced by `isend(dest=1, tag=5)` — the map is
non-empty, so the source loop's first erase already invalidates its
iterator; under the intended wait-then-erase semantics of the loop
(see `cleanupLoop`) the postcondition the claim states does hold: the
request map ends empty and the stored request 0 has a `wait` event in
the trace. -/
theorem cleanup_erase_during_iteration_bug :
    ((1, 5), 0) ∈ (runOps [CommOp.isend 1 5]).requests
    ∧ (cleanup (runOps [CommOp.isend 1 5])).requests = []
    ∧ MpiEvent.wait 0 ∈ (cleanup (runOps [CommOp.isend 1 5])).trace := by decide

/-! ## C6 — no two in-flight requests share (peer, tag) -/

/-- C6: at no point are two non-blocking requests in flight that share
the same `(peer, tag)` pair — after any sequence of
`isend`/`irecv`/status-variant/`cleanup` operations the in-flight
requests have pairwise distinct keys — and whenever an issue finds a
stored request under its `(peer, tag)` index it first waits on that
request before issuing the new one. -/
theorem no_shared_inflight_index :
    (∀ ops : List CommOp, (inFlight (runOps ops).trace).Pairwise (fun a b => a.1 ≠ b.1))
    ∧ (∀ (s : MpiP2P) (p t : ℤ) (old : ℕ), lookupReq s.requests (p, t) = some old →
        (issueRequest s p t).trace
          = s.trace ++ [MpiEvent.wait old, MpiEvent.issue p t s.next_id]) := by
  constructor
  · intro ops
    exact (goodComm_runOps ops).2.1
  · intro s p t old hlk
    simp [issueRequest, hlk]

/-- Witness for C6: a second `isend` to `(1, 5)` finds the stored
request 0 and waits on it before issuing request 1. -/
theorem no_shared_inflight_index_witness :
    lookupReq (runOps [CommOp.isend 1 5]).requests (1, 5) = some 0
    ∧ (issueRequest (runOps [CommOp.isend 1 5]) 1 5).trace
        = (runOps [CommOp.isend 1 5]).trace
          ++ [MpiEvent.wait 0, MpiEvent.issue 1 5 (runOps [CommOp.isend 1 5]).next_id] :=
  ⟨by decide, no_shared_inflight_index.2 (runOps [CommOp.isend 1 5]) 1 5 0 (by decide)⟩

/-! ## C4 — 3D transfer geometry checks -/

theorem natCbrt_facts (n : ℕ) :
    (natCbrt n ≠ 0 → natCbrt n * natCbrt n * natCbrt n ≤ n)
    ∧ ∀ j, natCbrt n < j → j ≤ n → ¬ (j * j * j ≤ n) := by
  have h := Nat.findGreatest_eq_iff.mp
    (rfl : Nat.findGreatest (fun j => j * j * j ≤ n) n
      = Nat.findGreatest (fun j => j * j * j ≤ n) n)
  exact ⟨h.2.1, fun j hj hjn => h.2.2 hj hjn⟩

theorem natCbrt_cube (k : ℕ) : natCbrt (k * k * k) = k := by
  have hfacts := natCbrt_facts (k * k * k)
  have hk3 : k ≤ k * k * k := by
    rcases Nat.eq_zero_or_pos k with rfl | hpos
    · simp
    · calc k = 1 * 1 * k := by ring
        _ ≤ k * k * k := Nat.mul_le_mul (Nat.mul_le_mul hpos hpos) le_rfl
  have hle : k ≤ natCbrt (k * k * k) := by
    by_contra hlt
    push_neg at hlt
    exact hfacts.2 k hlt hk3 le_rfl
  have hge : natCbrt (k * k * k) ≤ k := by
    by_cases h0 : natCbrt (k * k * k) = 0
    · omega
    · have hcube := hfacts.1 h0
      by_contra hgt
      push_neg at hgt
      have h1 : k + 1 ≤ natCbrt (k * k * k) := hgt
      have h2 : (k + 1) * (k + 1) * (k + 1)
          ≤ natCbrt (k * k * k) * natCbrt (k * k * k) * natCbrt (k * k * k) :=
        Nat.mul_le_mul (Nat.mul_le_mul h1 h1) h1
      have h4 : k * k * k + (3 * (k * k) + 3 * k + 1) ≤ k * k * k + 0 := by
        calc k * k * k + (3 * (k * k) + 3 * k + 1) = (k + 1) * (k + 1) * (k + 1) := by ring
          _ ≤ natCbrt (k * k * k) * natCbrt (k * k * k) * natCbrt (k * k * k) := h2
          _ ≤ k * k * k := hcube
          _ = k * k * k + 0 := by ring
      have h5 : 3 * (k * k) + 3 * k + 1 ≤ 0 := Nat.le_of_add_le_add_left h4
      exact absurd h5 (Nat.not_succ_le_zero _)
  omega

theorem natCbrt_cube_iff (n : ℕ) :
    natCbrt n * natCbrt n * natCbrt n = n ↔ IsCubeCount n := by
  constructor
  · intro h
    exact ⟨natCbrt n, h⟩
  · rintro ⟨k, rfl⟩
    rw [natCbrt_cube]

theorem interpolate3d_error_iff (forward : List ℚ → List ℂ)
    (backward : List ℂ → List ℚ) (coarse fine : List ℚ) :
    (∃ msg, interpolate_data_3d forward backward coarse fine = Except.error msg)
      ↔ (fine.length ≠ coarse.length
          ∧ (¬ IsCubeCount coarse.length ∨ ¬ IsCubeCount fine.length
             ∨ natCbrt fine.length ≠ 2 * natCbrt coarse.length)) := by
  by_cases hEq : fine.length = coarse.length
  · have hres : interpolate_data_3d forward backward coarse fine = Except.ok coarse := by
      simp only [interpolate_data_3d]
      rw [if_pos hEq]
    rw [hres]
    simp [hEq]
  · by_cases hc : natCbrt coarse.length * natCbrt coarse.length * natCbrt coarse.length
        = coarse.length
    · by_cases hf : natCbrt fine.length * natCbrt fine.length * natCbrt fine.length
          = fine.length
      · by_cases hfac : natCbrt fine.length = natCbrt coarse.length * 2
        · have hres : interpolate_data_3d forward backward coarse fine
              = Except.ok (backward (buildFineZ (forward coarse) coarse.length fine.length
                  (natCbrt coarse.length) (natCbrt fine.length))) := by
            simp only [interpolate_data_3d]
            rw [if_neg hEq, if_neg (not_not_intro hc), if_neg (not_not_intro hf),
              if_neg (not_not_intro hfac)]
          rw [hres]
          constructor
          · rintro ⟨msg, hmsg⟩
            exact absurd hmsg (by simp)
          · rintro ⟨-, hgeo⟩
            rcases hgeo with hcc | hff | hdd
            · exact absurd ((natCbrt_cube_iff _).mp hc) hcc
            · exact absurd ((natCbrt_cube_iff _).mp hf) hff
            · exact absurd (by rw [hfac, Nat.mul_comm]) hdd
        · have hres : interpolate_data_3d forward backward coarse fine
              = Except.error "unsupported coarsening factor for FFTW interpolation" := by
            simp only [interpolate_data_3d]
            rw [if_neg hEq, if_neg (not_not_intro hc), if_neg (not_not_intro hf),
              if_pos hfac]
          rw [hres]
          constructor
          · intro _
            exact ⟨hEq, Or.inr (Or.inr (fun hdd => hfac (by rw [hdd, Nat.mul_comm])))⟩
          · intro _
            exact ⟨_, rfl⟩
      · have hres : interpolate_data_3d forward backward coarse fine
            = Except.error "fine space not a cube" := by
          simp only [interpolate_data_3d]
          rw [if_neg hEq, if_neg (not_not_intro hc), if_pos hf]
        rw [hres]
        constructor
        · intro _
          exact ⟨hEq, Or.inr (Or.inl (fun hff => hf ((natCbrt_cube_iff _).mpr hff)))⟩
        · intro _
          exact ⟨_, rfl⟩
    · have hres : interpolate_data_3d forward backward coarse fine
          = Except.error "coarse space not a cube" := by
        simp only [interpolate_data_3d]
        rw [if_neg hEq, if_pos hc]
      rw [hres]
      constructor
      · intro _
        exact ⟨hEq, Or.inl (fun hcc => hc ((natCbrt_cube_iff _).mpr hcc))⟩
      · intro _
        exact ⟨_, rfl⟩

theorem restrict3d_error_iff (coarse fine : List ℚ) :
    (∃ msg, restrict_data_3d coarse fine = Except.error msg)
      ↔ (fine.length ≠ coarse.length
          ∧ (¬ IsCubeCount coarse.length ∨ ¬ IsCubeCount fine.length
             ∨ natCbrt fine.length ≠ 2 * natCbrt coarse.length)) := by
  by_cases hEq : fine.length = coarse.length
  · have hres : restrict_data_3d coarse fine = Except.ok fine := by
      simp only [restrict_data_3d]
      rw [if_pos hEq]
    rw [hres]
    simp [hEq]
  · by_cases hc : natCbrt coarse.length * natCbrt coarse.length * natCbrt coarse.length
        = coarse.length
    · by_cases hf : natCbrt fine.length * natCbrt fine.length * natCbrt fine.length
          = fine.length
      · by_cases hfac : natCbrt fine.length = natCbrt coarse.length * 2
        · have hres : ∀ msg, restrict_data_3d coarse fine ≠ Except.error msg := by
            intro msg hmsg
            simp only [restrict_data_3d] at hmsg
            rw [if_neg hEq, if_neg (not_not_intro hc), if_neg (not_not_intro hf),
              if_neg (not_not_intro hfac)] at hmsg
            exact absurd hmsg (by simp)
          constructor
          · rintro ⟨msg, hmsg⟩
            exact absurd hmsg (hres msg)
          · rintro ⟨-, hgeo⟩
            rcases hgeo with hcc | hff | hdd
            · exact absurd ((natCbrt_cube_iff _).mp hc) hcc
            · exact absurd ((natCbrt_cube_iff _).mp hf) hff
            · exact absurd (by rw [hfac, Nat.mul_comm]) hdd
        · have hres : restrict_data_3d coarse fine
              = Except.error "unsupported coarsening factor for FFTW interpolation" := by
            simp only [restrict_data_3d]
            rw [if_neg hEq, if_neg (not_not_intro hc), if_neg (not_not_intro hf),
              if_pos hfac]
          rw [hres]
          constructor
          · intro _
            exact ⟨hEq, Or.inr (Or.inr (fun hdd => hfac (by rw [hdd, Nat.mul_comm])))⟩
          · intro _
            exact ⟨_, rfl⟩
      · have hres : restrict_data_3d coarse fine = Except.error "fine space not a cube" := by
          simp only [restrict_data_3d]
          rw [if_neg hEq, if_neg (not_not_intro hc), if_pos hf]
        rw [hres]
        constructor
        · intro _
          exact ⟨hEq, Or.inr (Or.inl (fun hff => hf ((natCbrt_cube_iff _).mpr hff)))⟩
        · intro _
          exact ⟨_, rfl⟩
    · have hres : restrict_data_3d coarse fine = Except.error "coarse space not a cube" := by
        simp only [restrict_data_3d]
        rw [if_neg hEq, if_pos hc]
      rw [hres]
      constructor
      · intro _
        exact ⟨hEq, Or.inl (fun hcc => hc ((natCbrt_cube_iff _).mpr hcc))⟩
      · intro _
        exact ⟨_, rfl⟩

/-- C4: for the 3D spectral transfer with unequal fine and coarse DOF
counts, `interpolate_data` and `restrict_data` raise an error exactly
when some side's total DOF count is not a perfect cube or the
per-dimension fine size is not exactly twice the per-dimension coarse
size; with equal counts they perform a plain copy and raise no error.
The FFT collaborator is arbitrary (`forward`/`backward` parameters). -/
theorem spectral3d_geometry_checks (forward : List ℚ → List ℂ)
    (backward : List ℂ → List ℚ) (coarse fine : List ℚ) :
    ((∃ msg, interpolate_data_3d forward backward coarse fine = Except.error msg)
      ↔ (fine.length ≠ coarse.length
          ∧ (¬ IsCubeCount coarse.length ∨ ¬ IsCubeCount fine.length
             ∨ natCbrt fine.length ≠ 2 * natCbrt coarse.length)))
    ∧ ((∃ msg, restrict_data_3d coarse fine = Except.error msg)
      ↔ (fine.length ≠ coarse.length
          ∧ (¬ IsCubeCount coarse.length ∨ ¬ IsCubeCount fine.length
             ∨ natCbrt fine.length ≠ 2 * natCbrt coarse.length)))
    ∧ (fine.length = coarse.length →
        interpolate_data_3d forward backward coarse fine = Except.ok coarse
        ∧ restrict_data_3d coarse fine = Except.ok fine) := by
  refine ⟨interpolate3d_error_iff forward backward coarse fine,
    restrict3d_error_iff coarse fine, ?_⟩
  intro h
  constructor <;> simp [interpolate_data_3d, restrict_data_3d, h]

/-- Witness for C4: with equal DOF counts (`[1/2]` against `[3]`) both
operations are plain copies, for a trivial FFT collaborator. -/
theorem spectral3d_geometry_checks_witness :
    ([(3 : ℚ)].length = [(1/2 : ℚ)].length)
    ∧ interpolate_data_3d (fun _ => []) (fun _ => []) [(1/2 : ℚ)] [(3 : ℚ)]
        = Except.ok [(1/2 : ℚ)]
    ∧ restrict_data_3d [(1/2 : ℚ)] [(3 : ℚ)] = Except.ok [(3 : ℚ)] :=
  ⟨rfl, (spectral3d_geometry_checks (fun _ => []) (fun _ => [])
    [(1/2 : ℚ)] [(3 : ℚ)]).2.2 rfl⟩

/-! ## Discrete Fourier transform lemmas for the 1D transfer -/

theorem zetaN_ne_zero (N : ℕ) : zetaN N ≠ 0 := by
  rw [zetaN]
  exact Complex.exp_ne_zero _

theorem zetaN_isPrimitiveRoot (N : ℕ) (hN : N ≠ 0) : IsPrimitiveRoot (zetaN N) N := by
  rw [zetaN]
  exact Complex.isPrimitiveRoot_exp N hN

theorem zetaN_pow_self (N : ℕ) (hN : N ≠ 0) : zetaN N ^ N = 1 :=
  (zetaN_isPrimitiveRoot N hN).pow_eq_one

theorem zetaN_zpow_self (N : ℕ) (hN : N ≠ 0) : zetaN N ^ (N : ℤ) = 1 := by
  rw [zpow_natCast]
  exact zetaN_pow_self N hN

theorem zetaN_geom_sum (N : ℕ) (hN : N ≠ 0) (i n : ℕ) (hi : i < N) (hn : n < N) :
    ∑ k ∈ Finset.range N, (zetaN N ^ i * (zetaN N)⁻¹ ^ n) ^ k
      = if i = n then (N : ℂ) else 0 := by
  have hzne : zetaN N ≠ 0 := zetaN_ne_zero N
  have hw : zetaN N ^ i * (zetaN N)⁻¹ ^ n = zetaN N ^ ((i : ℤ) - (n : ℤ)) := by
    rw [inv_pow, ← zpow_natCast (zetaN N) i, ← zpow_natCast (zetaN N) n, ← zpow_neg,
      ← zpow_add₀ hzne, ← sub_eq_add_neg]
  by_cases hin : i = n
  · subst hin
    rw [hw]
    simp
  · have hprim : IsPrimitiveRoot (zetaN N) N := zetaN_isPrimitiveRoot N hN
    have hw1 : zetaN N ^ i * (zetaN N)⁻¹ ^ n ≠ 1 := by
      rw [hw]
      intro hcon
      rcases (hprim.zpow_eq_one_iff_dvd _).mp hcon with ⟨t, ht⟩
      have hti : (i : ℤ) = (n : ℤ) + (N : ℤ) * t := by omega
      have hNz : (0 : ℤ) < (N : ℤ) := by exact_mod_cast Nat.pos_of_ne_zero hN
      have hiN : (i : ℤ) < (N : ℤ) := by exact_mod_cast hi
      have hnN : (n : ℤ) < (N : ℤ) := by exact_mod_cast hn
      have hi0 : (0 : ℤ) ≤ (i : ℤ) := Int.natCast_nonneg i
      have hn0 : (0 : ℤ) ≤ (n : ℤ) := Int.natCast_nonneg n
      have ht0 : t = 0 := by nlinarith
      rw [ht0, mul_zero, add_zero] at hti
      exact hin (by exact_mod_cast hti)
    rw [geom_sum_eq hw1]
    have hwN : (zetaN N ^ i * (zetaN N)⁻¹ ^ n) ^ N = 1 := by
      rw [hw, ← zpow_natCast (zetaN N ^ ((i : ℤ) - (n : ℤ))) N, ← zpow_mul,
        mul_comm ((i : ℤ) - (n : ℤ)) (N : ℤ), zpow_mul, zetaN_zpow_self N hN, one_zpow]
    rw [hwN, if_neg hin]
    simp

theorem dft_inversion (N : ℕ) (hN : N ≠ 0) (c : ℕ → ℂ) (i : ℕ) (hi : i < N) :
    (1 / (N : ℂ)) * ∑ k ∈ Finset.range N, dftForward N c k * zetaN N ^ (k * i) = c i := by
  have hsum : ∑ k ∈ Finset.range N, dftForward N c k * zetaN N ^ (k * i)
      = ∑ n ∈ Finset.range N, c n
          * ∑ k ∈ Finset.range N, (zetaN N ^ i * (zetaN N)⁻¹ ^ n) ^ k := by
    simp only [dftForward, Finset.sum_mul]
    rw [Finset.sum_comm]
    apply Finset.sum_congr rfl
    intro n _
    rw [Finset.mul_sum]
    apply Finset.sum_congr rfl
    intro k _
    rw [mul_pow, mul_assoc]
    congr 1
    rw [mul_comm k n, pow_mul, mul_comm k i, pow_mul]
    ring
  rw [hsum,
    Finset.sum_congr rfl (fun n hn => by
      rw [zetaN_geom_sum N hN i n hi (Finset.mem_range.mp hn)])]
  simp only [mul_ite, mul_zero]
  rw [Finset.sum_ite_eq (Finset.range N) i (fun n => c n * (N : ℂ)),
    if_pos (Finset.mem_range.mpr hi)]
  have hcast : ((N : ℂ)) ≠ 0 := Nat.cast_ne_zero.mpr hN
  field_simp

theorem zetaN_pow_half (m : ℕ) (hm : m ≠ 0) : zetaN (2 * m) ^ m = -1 := by
  have hmc : (m : ℂ) ≠ 0 := Nat.cast_ne_zero.mpr hm
  rw [zetaN, ← Complex.exp_nat_mul]
  have harg : (m : ℂ) * (2 * (Real.pi : ℂ) * Complex.I / ((2 * m : ℕ) : ℂ))
      = (Real.pi : ℂ) * Complex.I := by
    push_cast
    field_simp
    ring
  rw [harg, Complex.exp_pi_mul_I]

theorem zetaN_sq (N : ℕ) (hN : N ≠ 0) : zetaN (2 * N) ^ 2 = zetaN N := by
  have hNc : (N : ℂ) ≠ 0 := Nat.cast_ne_zero.mpr hN
  rw [zetaN, zetaN, ← Complex.exp_nat_mul]
  congr 1
  push_cast
  field_simp
  ring

/-- The forward DFT at the Nyquist frequency `m` of a `2m`-point grid is
the alternating sum of the data. -/
theorem dft_nyquist (m : ℕ) (hm : m ≠ 0) (c : ℕ → ℂ) :
    dftForward (2 * m) c m = ∑ n ∈ Finset.range (2 * m), (-1 : ℂ) ^ n * c n := by
  rw [dftForward]
  apply Finset.sum_congr rfl
  intro n _
  rw [pow_mul, inv_pow, zetaN_pow_half m hm]
  norm_num [mul_comm]

/-! ## C3 — the 1D spectral round trip -/

/-- C3 (amended): for a coarse grid of positive even size `2m` and a
fine grid of size `2·(2m)`, restricting the interpolated data back to
the coarse grid reproduces the coarse data up to the dropped Nyquist
mode: entry `i` of the round trip equals
`c i − (1/N_c)·(Σ_n (−1)^n·c n)·(−1)^i`.  In particular the round trip
is the identity exactly on data whose Nyquist coefficient
`Σ_n (−1)^n·c n` vanishes. -/
theorem spectral1d_round_trip (m : ℕ) (hm : 0 < m) (c : ℕ → ℂ) (i : ℕ)
    (hi : i < 2 * m) :
    restrict_data (2 * m) (2 * (2 * m)) (interpolate_data (2 * m) (2 * (2 * m)) c) i
      = c i - (1 / ((2 * m : ℕ) : ℂ))
          * (∑ n ∈ Finset.range (2 * m), (-1 : ℂ) ^ n * c n) * (-1 : ℂ) ^ i := by
  have hm0 : m ≠ 0 := Nat.pos_iff_ne_zero.mp hm
  have hNc0 : (2 * m) ≠ 0 := by omega
  have hNcc : ((2 * m : ℕ) : ℂ) ≠ 0 := Nat.cast_ne_zero.mpr hNc0
  have hquot : 2 * (2 * m) / (2 * m) = 2 := Nat.mul_div_cancel 2 (by omega)
  -- the shorthand for one summand of the inverse coarse transform
  set g : ℕ → ℂ := fun κ =>
    (1 / ((2 * m : ℕ) : ℂ)) * dftForward (2 * m) c κ * zetaN (2 * m) ^ (κ * i) with hg
  -- pointwise facts about the padded spectrum
  have hZ1 : ∀ k, k < m → interpZ (2 * m) (2 * (2 * m)) c k
      = (1 / ((2 * m : ℕ) : ℂ)) * dftForward (2 * m) c k := by
    intro k hk
    simp only [interpZ]
    rw [if_pos (by omega : k < 2 * m / 2)]
  have hZmid : ∀ k, m ≤ k → k ≤ 3 * m → interpZ (2 * m) (2 * (2 * m)) c k = 0 := by
    intro k h1 h2
    simp only [interpZ]
    rw [if_neg (by omega), if_neg (by omega)]
  have hZback : ∀ j, 1 ≤ j → j < m → interpZ (2 * m) (2 * (2 * m)) c (3 * m + j)
      = (1 / ((2 * m : ℕ) : ℂ)) * dftForward (2 * m) c (m + j) := by
    intro j h1 h2
    simp only [interpZ]
    rw [if_neg (by omega), if_pos (by omega : 2 * (2 * m) - 2 * m / 2 < 3 * m + j
      ∧ 3 * m + j < 2 * (2 * m))]
    have harg : 3 * m + j - (2 * (2 * m) - 2 * m) = m + j := by omega
    rw [harg]
  have hzshift : ∀ j, zetaN (2 * m) ^ ((3 * m + j) * i) = zetaN (2 * m) ^ ((m + j) * i) := by
    intro j
    have h1 : zetaN (2 * m) ^ ((3 * m + j) * i)
        = zetaN (2 * m) ^ ((m + j) * i) * (zetaN (2 * m) ^ (2 * m)) ^ i := by
      rw [← pow_mul, ← pow_add]
      congr 1
      ring
    rw [h1, zetaN_pow_self (2 * m) hNc0, one_pow, mul_one]
  -- unfold the two transfer operations and move to the coarse root
  simp only [restrict_data, interpolate_data, dftBackward]
  rw [hquot]
  rw [Finset.sum_congr rfl (fun k _ => by
    have hexp : k * (2 * i) = 2 * (k * i) := by ring
    rw [hexp, pow_mul, zetaN_sq (2 * m) hNc0])]
  -- split the fine index range at m and 3m
  rw [show Finset.range (2 * (2 * m)) = Finset.Ico 0 (2 * (2 * m)) by
      rw [Finset.range_eq_Ico],
    ← Finset.sum_Ico_consecutive _ (show 0 ≤ 3 * m by omega)
      (show 3 * m ≤ 2 * (2 * m) by omega),
    ← Finset.sum_Ico_consecutive _ (show 0 ≤ m by omega) (show m ≤ 3 * m by omega)]
  have hfront : ∑ k ∈ Finset.Ico 0 m,
      interpZ (2 * m) (2 * (2 * m)) c k * zetaN (2 * m) ^ (k * i)
      = ∑ k ∈ Finset.Ico 0 m, g k := by
    apply Finset.sum_congr rfl
    intro k hk
    rw [hZ1 k (Finset.mem_Ico.mp hk).2, hg]
  have hmid : ∑ k ∈ Finset.Ico m (3 * m),
      interpZ (2 * m) (2 * (2 * m)) c k * zetaN (2 * m) ^ (k * i) = 0 := by
    apply Finset.sum_eq_zero
    intro k hk
    rcases Finset.mem_Ico.mp hk with ⟨h1, h2⟩
    rw [hZmid k h1 (by omega), zero_mul]
  have hback : ∑ k ∈ Finset.Ico (3 * m) (2 * (2 * m)),
      interpZ (2 * m) (2 * (2 * m)) c k * zetaN (2 * m) ^ (k * i)
      = ∑ j ∈ Finset.Ico 1 m, g (m + j) := by
    rw [Finset.sum_Ico_eq_sum_range,
      show 2 * (2 * m) - 3 * m = m by omega]
    have hstep : ∀ j ∈ Finset.range m,
        interpZ (2 * m) (2 * (2 * m)) c (3 * m + j) * zetaN (2 * m) ^ ((3 * m + j) * i)
          = if j = 0 then 0 else g (m + j) := by
      intro j hj
      rcases Nat.eq_zero_or_pos j with rfl | hj1
      · rw [hZmid (3 * m + 0) (by omega) (by omega), zero_mul, if_pos rfl]
      · rw [hZback j hj1 (Finset.mem_range.mp hj), hzshift j, if_neg (by omega), hg]
    rw [Finset.sum_congr rfl hstep]
    have hsub : Finset.Ico 1 m ⊆ Finset.range m := by
      intro x hx
      rcases Finset.mem_Ico.mp hx with ⟨-, h2⟩
      exact Finset.mem_range.mpr h2
    have hvan : ∀ x ∈ Finset.range m, x ∉ Finset.Ico 1 m →
        (if x = 0 then 0 else g (m + x)) = 0 := by
      intro x hx hnx
      have h2 := Finset.mem_range.mp hx
      simp only [Finset.mem_Ico, not_and, not_lt] at hnx
      rw [if_pos (by omega)]
    rw [← Finset.sum_subset hsub hvan]
    apply Finset.sum_congr rfl
    intro j hj
    rcases Finset.mem_Ico.mp hj with ⟨h1, -⟩
    rw [if_neg (by omega)]
  rw [hfront, hmid, hback, add_zero]
  -- assemble against the full inverse transform
  have hinv : ∑ κ ∈ Finset.range (2 * m), g κ = c i := by
    have hga : ∀ κ ∈ Finset.range (2 * m), g κ
        = (1 / ((2 * m : ℕ) : ℂ))
          * (dftForward (2 * m) c κ * zetaN (2 * m) ^ (κ * i)) := by
      intro κ _
      simp only [hg]
      rw [mul_assoc]
    rw [Finset.sum_congr rfl hga, ← Finset.mul_sum]
    exact dft_inversion (2 * m) hNc0 c i hi
  have hsplit : ∑ κ ∈ Finset.range (2 * m), g κ
      = ∑ k ∈ Finset.Ico 0 m, g k + (g m + ∑ k ∈ Finset.Ico (m + 1) (2 * m), g k) := by
    rw [Finset.range_eq_Ico,
      ← Finset.sum_Ico_consecutive g (show 0 ≤ m by omega) (show m ≤ 2 * m by omega),
      Finset.sum_eq_sum_Ico_succ_bot (show m < 2 * m by omega) g]
  have hshift2 : ∑ j ∈ Finset.Ico 1 m, g (m + j)
      = ∑ k ∈ Finset.Ico (m + 1) (2 * m), g k := by
    rw [Finset.sum_Ico_eq_sum_range, Finset.sum_Ico_eq_sum_range,
      show m - 1 = 2 * m - (m + 1) by omega]
    apply Finset.sum_congr rfl
    intro j _
    congr 1
    omega
  have hgm : g m = (1 / ((2 * m : ℕ) : ℂ))
      * (∑ n ∈ Finset.range (2 * m), (-1 : ℂ) ^ n * c n) * (-1 : ℂ) ^ i := by
    simp only [hg]
    rw [dft_nyquist m hm0 c, pow_mul, zetaN_pow_half m hm0]
  rw [hshift2]
  have hfinal : ∑ k ∈ Finset.Ico 0 m, g k + ∑ k ∈ Finset.Ico (m + 1) (2 * m), g k
      = ∑ κ ∈ Finset.range (2 * m), g κ - g m := by
    rw [hsplit]
    ring
  rw [hfinal, hinv, hgm]

/-- C3 counterexample: on the 2-point coarse grid with data `(1, 0)`
(Nyquist coefficient 1), restricting the interpolation back to the
coarse grid yields `1/2` at index 0 instead of `1` — the round trip is
not the identity, because the interpolation drops the coarse Nyquist
mode. -/
theorem spectral1d_round_trip_cex :
    restrict_data 2 4 (interpolate_data 2 4 roundTripCex) 0 ≠ roundTripCex 0 := by
  have h1 : (4 : ℕ) / 2 * 0 = 0 := by norm_num
  simp only [restrict_data, h1, interpolate_data, dftBackward, interpZ, dftForward,
    roundTripCex, Finset.sum_range_succ, Finset.sum_range_zero]
  norm_num

/-- Witness for C3: the amended round-trip formula at `m = 1`, constant
data 1, index 0. -/
theorem spectral1d_round_trip_witness :
    (0 : ℕ) < 1 ∧ (0 : ℕ) < 2 * 1
    ∧ restrict_data (2 * 1) (2 * (2 * 1))
        (interpolate_data (2 * 1) (2 * (2 * 1)) (fun _ => 1)) 0
      = (fun _ => (1 : ℂ)) 0 - (1 / ((2 * 1 : ℕ) : ℂ))
          * (∑ n ∈ Finset.range (2 * 1), (-1 : ℂ) ^ n * (fun _ => (1 : ℂ)) n)
          * (-1 : ℂ) ^ 0 :=
  ⟨by decide, by decide,
    spectral1d_round_trip 1 (by decide) (fun _ => 1) 0 (by decide)⟩

end PFASST
